import Mathlib

/-!
A verification development for the `bevy-painter` material blending engine.

The Rust source is shallowly embedded:
* `f32` values are modelled as exact rationals (`ℚ`); all floating-point
  arithmetic in the blending pipeline (sums, products, divisions, clamps)
  is modelled by the corresponding exact operation, and the final
  `f32 -> u8` conversions (`.round() as u8`) are modelled exactly
  (round half away from zero, then a saturating cast).
* `u8`/`u32` values are modelled as `ℕ`, `i32` as `ℤ`; the wrapping
  `i32 -> u32` cast (`as u32`) is modelled by `% 2^32`.
* grids and cached slices own their storage as flat vectors in the source
  with an injective index layout; they are modelled as functions from
  coordinates, which is faithful because every access is bounds-checked
  before indexing.
* `Vec::sort_by_key` / `Vec::sort_by` are stable sorts; they are modelled
  by `List.insertionSort` with the same comparator, which is stable in the
  same sense (stable sorts with equal comparators agree extensionally).
* external collaborators from `bevy_sculpter` (`DensityField`,
  `NeighborDensityFields` and its slices) are consumed through their read
  interface only; they are modelled as abstract sampling functions, which
  covers every possible behaviour of the external crate.
-/

namespace BevyPainter

/-- Size of the material field grid, `field.rs` `FIELD_SIZE = uvec3(32,32,32)`;
`DENSITY_FIELD_SIZE` is documented to match it, so both are the cube size 32. -/
def FIELD_SIZE : ℕ := 32

/-- Depth of neighbor data to cache, `neighbor.rs` `NEIGHBOR_DEPTH = 2`. -/
def NEIGHBOR_DEPTH : ℕ := 2

/-- Rust `f32::clamp(0.0, 1.0)`: `min 1 (max 0 x)`. -/
def clamp01 (q : ℚ) : ℚ := min 1 (max 0 q)

/-- Rust `f32::round`: round half away from zero. -/
def rustRound (q : ℚ) : ℤ := if 0 ≤ q then ⌊q + 1/2⌋ else -⌊-q + 1/2⌋

/-- Rust saturating float-to-`u8` conversion (`as u8` on an integral float). -/
def toU8 (z : ℤ) : ℕ := (min 255 (max 0 z)).toNat

/-- Rust `u8::saturating_add`. -/
def satAdd (a b : ℕ) : ℕ := min 255 (a + b)

/-- Rust wrapping `i32 -> u32` cast (`as u32`). -/
def toU32 (i : ℤ) : ℕ := (i % 4294967296).toNat

/-- Rust `Vec3` (components modelled as `ℚ`). -/
structure Vec3 where
  x : ℚ
  y : ℚ
  z : ℚ
deriving DecidableEq

/-- Rust `IVec3`. -/
structure IVec3 where
  x : ℤ
  y : ℤ
  z : ℤ
deriving DecidableEq

/-- Componentwise product of two `Vec3` (Rust `*`). -/
def Vec3.mulV (a b : Vec3) : Vec3 := ⟨a.x * b.x, a.y * b.y, a.z * b.z⟩

/-- Componentwise quotient of two `Vec3` (Rust `/`). -/
def Vec3.divV (a b : Vec3) : Vec3 := ⟨a.x / b.x, a.y / b.y, a.z / b.z⟩

/-- Rust `Vec3::floor().as_ivec3()`. -/
def Vec3.floorV (a : Vec3) : IVec3 := ⟨⌊a.x⌋, ⌊a.y⌋, ⌊a.z⌋⟩

/-- Rust `Vec3::round().as_ivec3()` (componentwise round half away from zero). -/
def Vec3.roundV (a : Vec3) : IVec3 := ⟨rustRound a.x, rustRound a.y, rustRound a.z⟩

/-- Adding a corner offset to a base voxel, `base + IVec3::from_slice(offset)`. -/
def IVec3.addOff (v : IVec3) (o : ℤ × ℤ × ℤ) : IVec3 := ⟨v.x + o.1, v.y + o.2.1, v.z + o.2.2⟩

/-- The test `FIELD_SIZE.as_vec3()` / `DENSITY_FIELD_SIZE.as_vec3()`. -/
def fieldSizeVec : Vec3 := ⟨32, 32, 32⟩

/-- The `(x,y,z)` in-bounds test against the 32-cube, as written in
`sample_density` / `sample_material` / `get_extended`. -/
def inGrid (v : IVec3) : Prop :=
  0 ≤ v.x ∧ 0 ≤ v.y ∧ 0 ≤ v.z ∧ v.x < 32 ∧ v.y < 32 ∧ v.z < 32

instance (v : IVec3) : Decidable (inGrid v) := by unfold inGrid; infer_instance

/-- `field.rs` `MaterialField`: a 32³ grid of `u8` material ids.  The flat
`Vec<u8>` with the injective layout `x + 32*y + 32*32*z` is modelled as a
function from coordinates. -/
structure MaterialField where
  data : ℕ → ℕ → ℕ → ℕ

/-- `MaterialField::get`: bounds-checked read, `0` out of bounds. -/
def MaterialField.get (f : MaterialField) (x y z : ℕ) : ℕ :=
  if x < FIELD_SIZE ∧ y < FIELD_SIZE ∧ z < FIELD_SIZE then f.data x y z else 0

/-- `MaterialField::set`: bounds-checked write, silently ignored out of bounds. -/
def MaterialField.set (f : MaterialField) (x y z v : ℕ) : MaterialField :=
  if x < FIELD_SIZE ∧ y < FIELD_SIZE ∧ z < FIELD_SIZE then
    ⟨fun a b c => if a = x ∧ b = y ∧ c = z then v else f.data a b c⟩
  else f

/-- External `bevy_sculpter::DensityField`, consumed read-only through
`get(x, y, z) -> f32`; modelled as an abstract sampling function. -/
structure DensityField where
  get : ℕ → ℕ → ℕ → ℚ

/-- External `bevy_sculpter` density neighbor slice, consumed through
`get(a, b, depth) -> f32` in `blending.rs`; abstract sampling function. -/
structure DensityNeighborSlice where
  get : ℕ → ℕ → ℕ → ℚ

/-- External `bevy_sculpter::neighbor::NeighborDensityFields`: six optional
face slices indexed by `NeighborFace as usize`. -/
structure NeighborDensityFields where
  neighbors : Fin 6 → Option DensityNeighborSlice

/-- `NeighborFace` in source order `NegX, PosX, NegY, PosY, NegZ, PosZ`
(the order used both by `as usize` indexing and the gather loop). -/
inductive NeighborFace where
  | NegX | PosX | NegY | PosY | NegZ | PosZ
deriving DecidableEq

/-- `NeighborFace as usize`. -/
def NeighborFace.idx : NeighborFace → Fin 6
  | .NegX => 0
  | .PosX => 1
  | .NegY => 2
  | .PosY => 3
  | .NegZ => 4
  | .PosZ => 5

/-- `neighbor.rs` `MaterialNeighborSlice`: boundary planes of material data
from a neighboring chunk, flat `[depth][b][a]` data modelled as a function
(the layout index `d*size_a*size_b + b*size_a + a` is injective in range). -/
structure MaterialNeighborSlice where
  data : ℕ → ℕ → ℕ → ℕ
  size_a : ℕ
  size_b : ℕ
  depth : ℕ

/-- `MaterialNeighborSlice::get(depth, a, b)`: bounds-checked read. -/
def MaterialNeighborSlice.get (s : MaterialNeighborSlice) (depth a b : ℕ) : Option ℕ :=
  if s.depth ≤ depth ∨ s.size_a ≤ a ∨ s.size_b ≤ b then none
  else some (s.data depth a b)

/-- The `(a, b, depth) -> (x, y, z)` source coordinate of
`MaterialNeighborSlice::from_field` for each face (sizes are all 32 so
`DENSITY_FIELD_SIZE.c - 1 - d` is `31 - d`). -/
def faceCoord : NeighborFace → ℕ → ℕ → ℕ → ℕ × ℕ × ℕ
  | .NegX, d, a, b => (d, a, b)
  | .PosX, d, a, b => (31 - d, a, b)
  | .NegY, d, a, b => (a, d, b)
  | .PosY, d, a, b => (a, 31 - d, b)
  | .NegZ, d, a, b => (a, b, d)
  | .PosZ, d, a, b => (a, b, 31 - d)

/-- `MaterialNeighborSlice::from_field`: sample a fixed-depth boundary of a
neighbor chunk's field.  For the cube grid every face has in-plane sizes
`(32, 32)` and depth `NEIGHBOR_DEPTH`. -/
def MaterialNeighborSlice.from_field (f : MaterialField) (face : NeighborFace) :
    MaterialNeighborSlice :=
  { data := fun d a b =>
      let c := faceCoord face d a b
      f.get c.1 c.2.1 c.2.2
    size_a := 32
    size_b := 32
    depth := NEIGHBOR_DEPTH }

/-- `neighbor.rs` `NeighborMaterialFields`: six optional face slices. -/
structure NeighborMaterialFields where
  neighbors : Fin 6 → Option MaterialNeighborSlice

/-- Early-return step combinator for `get_extended`: `some r` means the
source `return`ed `r` inside a face block; `none` means it fell through. -/
def stepOr (s : Option (Option ℕ)) (k : Option ℕ) : Option ℕ :=
  match s with
  | some r => r
  | none => k

/-- `NeighborMaterialFields::get_extended`: material at a position that may
extend beyond chunk boundaries.  Each face block `return`s the slice read
(only) when the depth is within `NEIGHBOR_DEPTH` and the slice is present;
otherwise control falls through to the next axis. -/
def NeighborMaterialFields.get_extended (nm : NeighborMaterialFields) (field : MaterialField)
    (x y z : ℤ) : Option ℕ :=
  if 0 ≤ x ∧ x < 32 ∧ 0 ≤ y ∧ y < 32 ∧ 0 ≤ z ∧ z < 32 then
    some (field.get x.toNat y.toNat z.toNat)
  else
    stepOr
      (if 32 ≤ x then
        (if (x - 32).toNat < NEIGHBOR_DEPTH then
          (nm.neighbors NeighborFace.PosX.idx).map
            (fun s => s.get (x - 32).toNat (toU32 y) (toU32 z))
        else none)
      else if x < 0 then
        (if ((-1) - x).toNat < NEIGHBOR_DEPTH then
          (nm.neighbors NeighborFace.NegX.idx).map
            (fun s => s.get ((-1) - x).toNat (toU32 y) (toU32 z))
        else none)
      else none)
      (stepOr
        (if 32 ≤ y then
          (if (y - 32).toNat < NEIGHBOR_DEPTH then
            (nm.neighbors NeighborFace.PosY.idx).map
              (fun s => s.get (y - 32).toNat (toU32 x) (toU32 z))
          else none)
        else if y < 0 then
          (if ((-1) - y).toNat < NEIGHBOR_DEPTH then
            (nm.neighbors NeighborFace.NegY.idx).map
              (fun s => s.get ((-1) - y).toNat (toU32 x) (toU32 z))
          else none)
        else none)
        (stepOr
          (if 32 ≤ z then
            (if (z - 32).toNat < NEIGHBOR_DEPTH then
              (nm.neighbors NeighborFace.PosZ.idx).map
                (fun s => s.get (z - 32).toNat (toU32 x) (toU32 y))
            else none)
          else if z < 0 then
            (if ((-1) - z).toNat < NEIGHBOR_DEPTH then
              (nm.neighbors NeighborFace.NegZ.idx).map
                (fun s => s.get ((-1) - z).toNat (toU32 x) (toU32 y))
            else none)
          else none)
          none))

/-- The material neighbor cache as consumed by `blending.rs`
(`sample_material_neighbor` reads slices through a total
`get(a, b, depth) -> u8` just like the density slices, so its slices are
modelled with that interface). -/
structure BlendMaterialSlice where
  get : ℕ → ℕ → ℕ → ℕ

/-- Material neighbor cache of `blending.rs`: six optional face slices. -/
structure BlendNeighborMaterialFields where
  neighbors : Fin 6 → Option BlendMaterialSlice

/-- `blending.rs` `MaterialBlendSettings`. -/
structure MaterialBlendSettings where
  density_influence : ℚ
  weight_threshold : ℚ
deriving DecidableEq

/-- `impl Default for MaterialBlendSettings`:
`density_influence = 2.0`, `weight_threshold = 0.01`. -/
def MaterialBlendSettings.default : MaterialBlendSettings :=
  { density_influence := 2, weight_threshold := 1/100 }

/-- `blending.rs` `CORNER_OFFSETS`: offsets to the 8 corners of a voxel cube. -/
def CORNER_OFFSETS : List (ℤ × ℤ × ℤ) :=
  [(0, 0, 0), (1, 0, 0), (0, 1, 0), (1, 1, 0), (0, 0, 1), (1, 0, 1), (0, 1, 1), (1, 1, 1)]

/-- `blending.rs` `sample_density_neighbor`: dispatch an out-of-bounds voxel
to the matching face slice of the density neighbor cache.  Each block
`return`s only when its face slice is present (`Option.or` chains the
fall-through). -/
def sample_density_neighbor (voxel : IVec3) (neighbors : NeighborDensityFields) : Option ℚ :=
  Option.or
    (if voxel.x < 0 ∧ 0 ≤ voxel.y ∧ 0 ≤ voxel.z ∧ voxel.y < 32 ∧ voxel.z < 32 then
      (neighbors.neighbors NeighborFace.NegX.idx).map
        (fun slice => slice.get (toU32 voxel.y) (toU32 voxel.z) (((-1) - voxel.x).toNat))
    else none)
    (Option.or
      (if 32 ≤ voxel.x ∧ 0 ≤ voxel.y ∧ 0 ≤ voxel.z ∧ voxel.y < 32 ∧ voxel.z < 32 then
        (neighbors.neighbors NeighborFace.PosX.idx).map
          (fun slice => slice.get (toU32 voxel.y) (toU32 voxel.z) ((voxel.x - 32).toNat))
      else none)
      (Option.or
        (if voxel.y < 0 ∧ 0 ≤ voxel.x ∧ 0 ≤ voxel.z ∧ voxel.x < 32 ∧ voxel.z < 32 then
          (neighbors.neighbors NeighborFace.NegY.idx).map
            (fun slice => slice.get (toU32 voxel.x) (toU32 voxel.z) (((-1) - voxel.y).toNat))
        else none)
        (Option.or
          (if 32 ≤ voxel.y ∧ 0 ≤ voxel.x ∧ 0 ≤ voxel.z ∧ voxel.x < 32 ∧ voxel.z < 32 then
            (neighbors.neighbors NeighborFace.PosY.idx).map
              (fun slice => slice.get (toU32 voxel.x) (toU32 voxel.z) ((voxel.y - 32).toNat))
          else none)
          (Option.or
            (if voxel.z < 0 ∧ 0 ≤ voxel.x ∧ 0 ≤ voxel.y ∧ voxel.x < 32 ∧ voxel.y < 32 then
              (neighbors.neighbors NeighborFace.NegZ.idx).map
                (fun slice => slice.get (toU32 voxel.x) (toU32 voxel.y) (((-1) - voxel.z).toNat))
            else none)
            (if 32 ≤ voxel.z ∧ 0 ≤ voxel.x ∧ 0 ≤ voxel.y ∧ voxel.x < 32 ∧ voxel.y < 32 then
              (neighbors.neighbors NeighborFace.PosZ.idx).map
                (fun slice => slice.get (toU32 voxel.x) (toU32 voxel.y) ((voxel.z - 32).toNat))
            else none)))))

/-- `blending.rs` `sample_density`: in-bounds direct sample; else the
neighbor cache; else exterior density `1.0`. -/
def sample_density (voxel : IVec3) (field : DensityField)
    (neighbors : Option NeighborDensityFields) : ℚ :=
  if inGrid voxel then
    field.get voxel.x.toNat voxel.y.toNat voxel.z.toNat
  else
    match neighbors with
    | some ns =>
      match sample_density_neighbor voxel ns with
      | some d => d
      | none => 1
    | none => 1

/-- `blending.rs` `sample_material_neighbor`: same dispatch as
`sample_density_neighbor`, over the material neighbor cache. -/
def sample_material_neighbor (voxel : IVec3) (neighbors : BlendNeighborMaterialFields) :
    Option ℕ :=
  Option.or
    (if voxel.x < 0 ∧ 0 ≤ voxel.y ∧ 0 ≤ voxel.z ∧ voxel.y < 32 ∧ voxel.z < 32 then
      (neighbors.neighbors NeighborFace.NegX.idx).map
        (fun slice => slice.get (toU32 voxel.y) (toU32 voxel.z) (((-1) - voxel.x).toNat))
    else none)
    (Option.or
      (if 32 ≤ voxel.x ∧ 0 ≤ voxel.y ∧ 0 ≤ voxel.z ∧ voxel.y < 32 ∧ voxel.z < 32 then
        (neighbors.neighbors NeighborFace.PosX.idx).map
          (fun slice => slice.get (toU32 voxel.y) (toU32 voxel.z) ((voxel.x - 32).toNat))
      else none)
      (Option.or
        (if voxel.y < 0 ∧ 0 ≤ voxel.x ∧ 0 ≤ voxel.z ∧ voxel.x < 32 ∧ voxel.z < 32 then
          (neighbors.neighbors NeighborFace.NegY.idx).map
            (fun slice => slice.get (toU32 voxel.x) (toU32 voxel.z) (((-1) - voxel.y).toNat))
        else none)
        (Option.or
          (if 32 ≤ voxel.y ∧ 0 ≤ voxel.x ∧ 0 ≤ voxel.z ∧ voxel.x < 32 ∧ voxel.z < 32 then
            (neighbors.neighbors NeighborFace.PosY.idx).map
              (fun slice => slice.get (toU32 voxel.x) (toU32 voxel.z) ((voxel.y - 32).toNat))
          else none)
          (Option.or
            (if voxel.z < 0 ∧ 0 ≤ voxel.x ∧ 0 ≤ voxel.y ∧ voxel.x < 32 ∧ voxel.y < 32 then
              (neighbors.neighbors NeighborFace.NegZ.idx).map
                (fun slice => slice.get (toU32 voxel.x) (toU32 voxel.y) (((-1) - voxel.z).toNat))
            else none)
            (if 32 ≤ voxel.z ∧ 0 ≤ voxel.x ∧ 0 ≤ voxel.y ∧ voxel.x < 32 ∧ voxel.y < 32 then
              (neighbors.neighbors NeighborFace.PosZ.idx).map
                (fun slice => slice.get (toU32 voxel.x) (toU32 voxel.y) ((voxel.z - 32).toNat))
            else none)))))

/-- `blending.rs` `sample_material`: in-bounds direct sample; else the
neighbor cache; else the default material `0`. -/
def sample_material (voxel : IVec3) (field : MaterialField)
    (neighbors : Option BlendNeighborMaterialFields) : ℕ :=
  if inGrid voxel then
    field.get voxel.x.toNat voxel.y.toNat voxel.z.toNat
  else
    match neighbors with
    | some ns =>
      match sample_material_neighbor voxel ns with
      | some m => m
      | none => 0
    | none => 0

/-- One corner's contribution test in `compute_vertex_materials`:
`if density < 0.0 { let weight = (-density * influence).clamp(0.0, 1.0);
if weight > threshold { push (material, weight) } }`. -/
def cornerEntry (density : ℚ) (material : ℕ) (settings : MaterialBlendSettings) :
    Option (ℕ × ℚ) :=
  if density < 0 ∧ settings.weight_threshold < clamp01 (-density * settings.density_influence)
  then some (material, clamp01 (-density * settings.density_influence))
  else none

/-- The fractional grid position of a vertex:
`grid_pos = world_pos * (FIELD_SIZE.as_vec3() / mesh_size)`. -/
def gridPos (world_pos mesh_size : Vec3) : Vec3 :=
  world_pos.mulV (fieldSizeVec.divV mesh_size)

/-- The contribution-collection loop of `compute_vertex_materials` over the
8 cube corners of `floor(grid_pos)`. -/
def vertexContributions (world_pos mesh_size : Vec3) (density_field : DensityField)
    (material_field : MaterialField) (neighbor_densities : Option NeighborDensityFields)
    (neighbor_materials : Option BlendNeighborMaterialFields)
    (settings : MaterialBlendSettings) : List (ℕ × ℚ) :=
  let base := (gridPos world_pos mesh_size).floorV
  CORNER_OFFSETS.filterMap (fun offset =>
    let voxel := base.addOff offset
    cornerEntry (sample_density voxel density_field neighbor_densities)
      (sample_material voxel material_field neighbor_materials) settings)

/-- `vertex_data.rs` `VertexMaterialData`: four material ids and four blend
weights (`[u8; 4]` each, modelled as 4-element lists of `ℕ`). -/
structure VertexMaterialData where
  ids : List ℕ
  weights : List ℕ
deriving DecidableEq

/-- `VertexMaterialData::single`. -/
def VertexMaterialData.single (material_id : ℕ) : VertexMaterialData :=
  { ids := [material_id, 0, 0, 0], weights := [255, 0, 0, 0] }

/-- `VertexMaterialData::blend2` (source binder `ratio` is `r` here). -/
def VertexMaterialData.blend2 (id0 id1 : ℕ) (r : ℚ) : VertexMaterialData :=
  let w1 := toU8 (rustRound (clamp01 r * 255))
  { ids := [id0, id1, 0, 0], weights := [255 - w1, w1, 0, 0] }

/-- `VertexMaterialData::blend3`: normalize three weights to 255, the last
slot absorbing rounding error through saturating subtraction. -/
def VertexMaterialData.blend3 (id0 id1 id2 : ℕ) (w0 w1 w2 : ℚ) : VertexMaterialData :=
  let sum := w0 + w1 + w2
  if sum < 1/10000 then VertexMaterialData.single id0
  else
    let scale := 255 / sum
    let w0u8 := toU8 (rustRound (w0 * scale))
    let w1u8 := toU8 (rustRound (w1 * scale))
    let w2u8 := 255 - w0u8 - w1u8
    { ids := [id0, id1, id2, 0], weights := [w0u8, w1u8, w2u8, 0] }

/-- `VertexMaterialData::blend4`: normalize four weights to 255; the first
three are rounded and accumulated with `saturating_add`, the fourth is the
saturating remainder. -/
def VertexMaterialData.blend4 (ids : List ℕ) (ws : List ℚ) : VertexMaterialData :=
  let sum := ws.sum
  if sum < 1/10000 then VertexMaterialData.single (ids.getD 0 0)
  else
    let scale := 255 / sum
    let r0 := toU8 (rustRound (ws.getD 0 0 * scale))
    let r1 := toU8 (rustRound (ws.getD 1 0 * scale))
    let r2 := toU8 (rustRound (ws.getD 2 0 * scale))
    let running := satAdd (satAdd (satAdd 0 r0) r1) r2
    { ids := [ids.getD 0 0, ids.getD 1 0, ids.getD 2 0, ids.getD 3 0]
      weights := [r0, r1, r2, 255 - running] }

/-- `VertexMaterialData::pack_ids`: little-endian pack of the four id bytes
into a `u32` (`|` of disjoint byte lanes of `u8` values is addition). -/
def VertexMaterialData.pack_ids (v : VertexMaterialData) : ℕ :=
  v.ids.getD 0 0 + v.ids.getD 1 0 * 2 ^ 8 + v.ids.getD 2 0 * 2 ^ 16 + v.ids.getD 3 0 * 2 ^ 24

/-- `VertexMaterialData::pack_weights`: little-endian pack of the four
weight bytes into a `u32`. -/
def VertexMaterialData.pack_weights (v : VertexMaterialData) : ℕ :=
  v.weights.getD 0 0 + v.weights.getD 1 0 * 2 ^ 8 + v.weights.getD 2 0 * 2 ^ 16 +
    v.weights.getD 3 0 * 2 ^ 24

/-- Byte `i` (little-endian) of a packed `u32`. -/
def byteAt (u i : ℕ) : ℕ := u / 2 ^ (8 * i) % 256

/-- Unpacking the four little-endian bytes of a `u32`. -/
def unpackBytes (u : ℕ) : List ℕ := [byteAt u 0, byteAt u 1, byteAt u 2, byteAt u 3]

/-- Comparator of `contributions.sort_by_key(|(mat, _)| *mat)`. -/
def byId (a b : ℕ × ℚ) : Prop := a.1 ≤ b.1

instance : DecidableRel byId := fun a b => by unfold byId; infer_instance

instance : IsTotal (ℕ × ℚ) byId := ⟨fun a b => Nat.le_total a.1 b.1⟩

instance : IsTrans (ℕ × ℚ) byId := ⟨fun _ _ _ h h2 => Nat.le_trans h h2⟩

/-- Comparator of `merged.sort_by(|a, b| b.1.partial_cmp(&a.1) ...)`:
weight descending (`a` sorts before `b` when `b`'s weight is at most `a`'s). -/
def byWeightDesc (a b : ℕ × ℚ) : Prop := b.2 ≤ a.2

instance : DecidableRel byWeightDesc := fun a b => by unfold byWeightDesc; infer_instance

instance : IsTotal (ℕ × ℚ) byWeightDesc := ⟨fun a b => le_total b.2 a.2⟩

instance : IsTrans (ℕ × ℚ) byWeightDesc := ⟨fun _ _ _ h h2 => le_trans h2 h⟩

/-- The duplicate-merging loop of `merge_and_normalize_materials`, carrying
the current last `(mat, weight)` of `merged`: an equal id accumulates into
the carried weight, a new id pushes the carried pair. -/
def mergeGo (m : ℕ) (w : ℚ) : List (ℕ × ℚ) → List (ℕ × ℚ)
  | [] => [(m, w)]
  | (m2, w2) :: t => if m2 = m then mergeGo m (w + w2) t else (m, w) :: mergeGo m2 w2 t

/-- Merging adjacent duplicate ids (the `merged` loop). -/
def mergeAdjacent : List (ℕ × ℚ) → List (ℕ × ℚ)
  | [] => []
  | (m, w) :: t => mergeGo m w t

/-- `blending.rs` `merge_and_normalize_materials`: sort by id (stable) to
group duplicates, merge adjacent duplicates, sort by weight descending
(stable), then normalize to sum 1 when the sum is positive. -/
def merge_and_normalize_materials (contributions : List (ℕ × ℚ)) : List (ℕ × ℚ) :=
  let sortedById := List.insertionSort byId contributions
  let merged := mergeAdjacent sortedById
  let sortedByWeight := List.insertionSort byWeightDesc merged
  let sum := (sortedByWeight.map Prod.snd).sum
  if 0 < sum then sortedByWeight.map (fun p => (p.1, p.2 / sum)) else sortedByWeight

/-- `blending.rs` `contributions_to_vertex_data`: dispatch on the number of
merged contributions, keeping at most the top 4. -/
def contributions_to_vertex_data (contributions : List (ℕ × ℚ)) : VertexMaterialData :=
  match contributions with
  | [] => VertexMaterialData.single 0
  | [(m0, _)] => VertexMaterialData.single m0
  | [(m0, _), (m1, w1)] => VertexMaterialData.blend2 m0 m1 w1
  | [(m0, w0), (m1, w1), (m2, w2)] => VertexMaterialData.blend3 m0 m1 m2 w0 w1 w2
  | (m0, w0) :: (m1, w1) :: (m2, w2) :: (m3, w3) :: _ =>
    VertexMaterialData.blend4 [m0, m1, m2, m3] [w0, w1, w2, w3]

/-- `blending.rs` `compute_vertex_materials`: the blend engine entry point. -/
def compute_vertex_materials (world_pos mesh_size : Vec3) (density_field : DensityField)
    (material_field : MaterialField) (neighbor_densities : Option NeighborDensityFields)
    (neighbor_materials : Option BlendNeighborMaterialFields)
    (settings : MaterialBlendSettings) : VertexMaterialData :=
  let grid_pos := gridPos world_pos mesh_size
  let contributions := vertexContributions world_pos mesh_size density_field material_field
    neighbor_densities neighbor_materials settings
  if contributions = [] then
    let nearest := grid_pos.roundV
    VertexMaterialData.single (sample_material nearest material_field neighbor_materials)
  else
    contributions_to_vertex_data (merge_and_normalize_materials contributions)

/-- The per-voxel material of `brushes.rs` `fill_height_layers`: the first
layer whose `max_height` exceeds the voxel height, else the last layer's
id, else `0`. -/
def layerMaterialAt (layers : List (ℚ × ℕ)) (y : ℕ) : ℕ :=
  (((layers.find? (fun l => decide ((y : ℚ) < l.1))).map Prod.snd).getD
    (((layers.getLast?).map Prod.snd).getD 0))

/-- `brushes.rs` `fill_height_layers`: fill materials by height layer over
the whole 32³ grid (z, then y — where the material is computed — then x). -/
def fill_height_layers (field : MaterialField) (layers : List (ℚ × ℕ)) : MaterialField :=
  (List.range 32).foldl (fun fz z =>
    (List.range 32).foldl (fun fy y =>
      let material := layerMaterialAt layers y
      (List.range 32).foldl (fun fx x => fx.set x y z material) fy) fz) field

/-- Corner weight formula as the spec words it (§4.3 step 2b):
`weight = max(0, -density) ^ power` with the default sharpness exponent
`power = 1.0`.  Modelled from the spec for comparison with the code's
`cornerEntry`. -/
def specCornerWeight (density : ℚ) : ℚ := max 0 (-density)

/-- Sum of the weights of a contribution list. -/
def totalWeight (l : List (ℕ × ℚ)) : ℚ := (l.map Prod.snd).sum

/-- Total weight contributed to one material id by a contribution list. -/
def groupedWeight (l : List (ℕ × ℚ)) (i : ℕ) : ℚ :=
  ((l.filter (fun p => decide (p.1 = i))).map Prod.snd).sum

/-- Strict blend output order: weight descending, exact-weight ties broken
by ascending material id. -/
def wOrd (a b : ℕ × ℚ) : Prop := b.2 < a.2 ∨ (b.2 = a.2 ∧ a.1 < b.1)

/-- Density grid exercising the rounding overflow of `blend4`: seven
interior corners of the cell at the origin, one exterior. -/
def exDensityO : DensityField :=
  ⟨fun x y z =>
    if x = 0 ∧ y = 0 ∧ z = 1 then -(42/85)
    else if x = 0 ∧ y = 1 ∧ z = 1 then -(1/170)
    else if x = 1 ∧ y = 1 ∧ z = 1 then 1
    else if x ≤ 1 ∧ y ≤ 1 ∧ z ≤ 1 then -(1/2)
    else 1⟩

/-- Material grid for the `blend4` overflow input: raw weights 3, 169/85,
1, 1/85 for materials 1, 2, 3, 4. -/
def exMaterialO : MaterialField :=
  ⟨fun x y z =>
    if (x = 0 ∧ y = 0 ∧ z = 0) ∨ (x = 1 ∧ y = 0 ∧ z = 0) ∨ (x = 0 ∧ y = 1 ∧ z = 0) then 1
    else if (x = 1 ∧ y = 1 ∧ z = 0) ∨ (x = 0 ∧ y = 0 ∧ z = 1) then 2
    else if x = 1 ∧ y = 0 ∧ z = 1 then 3
    else if x = 0 ∧ y = 1 ∧ z = 1 then 4
    else 0⟩

/-- Density grid with one fully interior corner and one faintly interior
corner (weight 1/64, above the default threshold 1/100). -/
def exDensityA : DensityField :=
  ⟨fun x y z =>
    if x = 0 ∧ y = 0 ∧ z = 0 then -(1/2)
    else if x = 1 ∧ y = 0 ∧ z = 0 then -(1/128)
    else 1⟩

/-- Material grid pairing material 1 with the strong corner and material 2
with the faint corner. -/
def exMaterialA : MaterialField :=
  ⟨fun x y z =>
    if x = 0 ∧ y = 0 ∧ z = 0 then 1
    else if x = 1 ∧ y = 0 ∧ z = 0 then 2
    else 0⟩

/-- Density grid with a single interior corner of density `-1/4`. -/
def exDensityC : DensityField :=
  ⟨fun x y z => if x = 0 ∧ y = 0 ∧ z = 0 then -(1/4) else 1⟩

/-- Material grid with material 7 at the origin. -/
def exMaterialC : MaterialField :=
  ⟨fun x y z => if x = 0 ∧ y = 0 ∧ z = 0 then 7 else 0⟩

/-- Density grid for the seam input: one interior corner at `(31,0,0)`,
everything else exterior. -/
def exDensityB : DensityField :=
  ⟨fun x y z => if x = 31 ∧ y = 0 ∧ z = 0 then -(1/2) else 1⟩

/-- Material grid with material 5 at `(31,0,0)`. -/
def exMaterialB : MaterialField :=
  ⟨fun x y z => if x = 31 ∧ y = 0 ∧ z = 0 then 5 else 0⟩

/-- Density neighbor cache whose `+X` slice resolves the out-of-bounds
corner `(32,0,0)` to the interior density `-1/2`. -/
def exNeighborDensB : NeighborDensityFields :=
  ⟨fun i =>
    if i = NeighborFace.PosX.idx then
      some ⟨fun a b d => if a = 0 ∧ b = 0 ∧ d = 0 then -(1/2) else 1⟩
    else none⟩

/-- Fully exterior density grid (all densities `+1.0`). -/
def exDensityExt : DensityField := ⟨fun _ _ _ => 1⟩

/-- Constant material grid with material 9 everywhere. -/
def exMaterial9 : MaterialField := ⟨fun _ _ _ => 9⟩

/-- Material grid whose value encodes its coordinate, `x + 32*y + 1024*z`
(injective in bounds), to exercise slice sampling. -/
def exMaterialCoord : MaterialField := ⟨fun x y z => x + 32 * y + 1024 * z⟩

/-- Material neighbor cache (of `neighbor.rs`) whose every face holds the
near-X boundary slice of `exMaterialCoord`. -/
def exNeighborMatB : NeighborMaterialFields :=
  ⟨fun _ => some (MaterialNeighborSlice.from_field exMaterialCoord NeighborFace.NegX)⟩

/-- Material neighbor cache with no cached slices at all. -/
def exNeighborMatEmpty : NeighborMaterialFields := ⟨fun _ => none⟩

/-- The height layer list of the spec's `fill_height_layers` test case. -/
def exLayers : List (ℚ × ℕ) := [(10, 1), (20, 2), (32, 3)]

/-- Reading after writing: a write lands exactly on its own in-bounds
coordinate. -/
theorem MaterialField.get_set (f : MaterialField) (x y z v a b c : ℕ) :
    (f.set x y z v).get a b c =
      if a = x ∧ b = y ∧ c = z ∧ x < 32 ∧ y < 32 ∧ z < 32 then v
      else f.get a b c := by
  unfold MaterialField.set MaterialField.get FIELD_SIZE
  split_ifs <;> simp_all

/-- Effect of the inner `x` loop of `fill_height_layers` on one voxel. -/
theorem foldl_setx_get (y z m : ℕ) :
    ∀ (xs : List ℕ) (f : MaterialField) (a b c : ℕ), a < 32 → b < 32 → c < 32 →
      (xs.foldl (fun acc xx => acc.set xx y z m) f).get a b c =
        if a ∈ xs ∧ b = y ∧ c = z then m else f.get a b c := by
  intro xs
  induction xs with
  | nil => intro f a b c _ _ _; simp
  | cons xx t ih =>
    intro f a b c ha hb hc
    rw [List.foldl_cons, ih _ a b c ha hb hc]
    by_cases ht : a ∈ t ∧ b = y ∧ c = z
    · rw [if_pos ht, if_pos ⟨List.mem_cons_of_mem _ ht.1, ht.2⟩]
    · rw [if_neg ht, MaterialField.get_set]
      by_cases he : a = xx ∧ b = y ∧ c = z
      · rw [if_pos ⟨he.1, he.2.1, he.2.2, he.1 ▸ ha, he.2.1 ▸ hb, he.2.2 ▸ hc⟩,
          if_pos ⟨he.1 ▸ List.mem_cons_self xx t, he.2⟩]
      · rw [if_neg (fun hcon => he ⟨hcon.1, hcon.2.1, hcon.2.2.1⟩), if_neg]
        intro hcon
        rcases hcon with ⟨hmem, h2, h3⟩
        rcases List.mem_cons.1 hmem with h | h
        · exact he ⟨h, h2, h3⟩
        · exact ht ⟨h, h2, h3⟩

/-- Effect of the middle `y` loop of `fill_height_layers` on one voxel. -/
theorem foldl_sety_get (z : ℕ) (mat : ℕ → ℕ) :
    ∀ (ys : List ℕ) (f : MaterialField) (a b c : ℕ), a < 32 → b < 32 → c < 32 →
      (ys.foldl (fun acc yy =>
          (List.range 32).foldl (fun acc2 xx => acc2.set xx yy z (mat yy)) acc) f).get a b c =
        if b ∈ ys ∧ c = z then mat b else f.get a b c := by
  intro ys
  induction ys with
  | nil => intro f a b c _ _ _; simp
  | cons yy t ih =>
    intro f a b c ha hb hc
    rw [List.foldl_cons, ih _ a b c ha hb hc]
    by_cases ht : b ∈ t ∧ c = z
    · rw [if_pos ht, if_pos ⟨List.mem_cons_of_mem _ ht.1, ht.2⟩]
    · rw [if_neg ht, foldl_setx_get _ _ _ _ _ a b c ha hb hc]
      by_cases he : b = yy ∧ c = z
      · rw [if_pos ⟨List.mem_range.2 ha, he.1, he.2⟩,
          if_pos ⟨he.1 ▸ List.mem_cons_self yy t, he.2⟩, he.1]
      · rw [if_neg (fun hcon => he ⟨hcon.2.1, hcon.2.2⟩), if_neg]
        intro hcon
        rcases hcon with ⟨hmem, h3⟩
        rcases List.mem_cons.1 hmem with h | h
        · exact he ⟨h, h3⟩
        · exact ht ⟨h, h3⟩

/-- Effect of the outer `z` loop of `fill_height_layers` on one voxel. -/
theorem foldl_setz_get (mat : ℕ → ℕ) :
    ∀ (zs : List ℕ) (f : MaterialField) (a b c : ℕ), a < 32 → b < 32 → c < 32 →
      (zs.foldl (fun acc zz =>
          (List.range 32).foldl (fun acc1 yy =>
            (List.range 32).foldl (fun acc2 xx => acc2.set xx yy zz (mat yy)) acc1) acc) f).get
          a b c =
        if c ∈ zs then mat b else f.get a b c := by
  intro zs
  induction zs with
  | nil => intro f a b c _ _ _; simp
  | cons zz t ih =>
    intro f a b c ha hb hc
    rw [List.foldl_cons, ih _ a b c ha hb hc]
    by_cases ht : c ∈ t
    · rw [if_pos ht, if_pos (List.mem_cons_of_mem _ ht)]
    · rw [if_neg ht, foldl_sety_get _ _ _ _ a b c ha hb hc]
      by_cases he : c = zz
      · rw [if_pos ⟨List.mem_range.2 hb, he⟩, if_pos (he ▸ List.mem_cons_self zz t)]
      · rw [if_neg (fun hcon => he hcon.2), if_neg]
        intro hcon
        rcases List.mem_cons.1 hcon with h | h
        · exact he h
        · exact ht h

/-- C9: `fill_height_layers` assigns to every voxel the material id of the
first listed layer whose `max_height` exceeds the voxel's Y coordinate,
with the last listed layer as fallback for heights at or above every
listed maximum (`layerMaterialAt` is exactly that selection, and the
material depends only on `y`). -/
theorem claim_C9_fill_height_layers (field : MaterialField) (layers : List (ℚ × ℕ))
    (x y z : ℕ) (hx : x < 32) (hy : y < 32) (hz : z < 32) :
    (fill_height_layers field layers).get x y z = layerMaterialAt layers y ∧
    layerMaterialAt layers y =
      (((layers.find? (fun l => decide ((y : ℚ) < l.1))).map Prod.snd).getD
        (((layers.getLast?).map Prod.snd).getD 0)) := by
  constructor
  · unfold fill_height_layers
    rw [foldl_setz_get (fun yy => layerMaterialAt layers yy) _ _ x y z hx hy hz,
      if_pos (List.mem_range.2 hz)]
  · rfl

/-- Witness for C9 at the spec's test case `[(10,1),(20,2),(32,3)]`:
material 1 at `y = 5`, 2 at `y = 15`, 3 at `y = 25`. -/
theorem claim_C9_fill_height_layers_witness :
    (fill_height_layers ⟨fun _ _ _ => 0⟩ exLayers).get 0 5 0 = 1 ∧
    (fill_height_layers ⟨fun _ _ _ => 0⟩ exLayers).get 0 15 0 = 2 ∧
    (fill_height_layers ⟨fun _ _ _ => 0⟩ exLayers).get 0 25 0 = 3 :=
  ⟨((claim_C9_fill_height_layers ⟨fun _ _ _ => 0⟩ exLayers 0 5 0 (by norm_num) (by norm_num)
      (by norm_num)).1).trans (by norm_num [layerMaterialAt, exLayers, List.find?]),
   ((claim_C9_fill_height_layers ⟨fun _ _ _ => 0⟩ exLayers 0 15 0 (by norm_num) (by norm_num)
      (by norm_num)).1).trans (by norm_num [layerMaterialAt, exLayers, List.find?]),
   ((claim_C9_fill_height_layers ⟨fun _ _ _ => 0⟩ exLayers 0 25 0 (by norm_num) (by norm_num)
      (by norm_num)).1).trans (by norm_num [layerMaterialAt, exLayers, List.find?])⟩

/-- Unfolding a list known to have four elements. -/
theorem list_eq_four (l : List ℕ) (h : l.length = 4) :
    ∃ a b c d, l = [a, b, c, d] := by
  match l, h with
  | [a, b, c, d], _ => exact ⟨a, b, c, d, rfl⟩

/-- C7: packing is a lossless little-endian round trip — byte `i` of
`pack_ids` is `ids[i]`, byte `i` of `pack_weights` is `weights[i]`, and
unpacking the packed `u32` values recovers both arrays exactly. -/
theorem claim_C7_pack_roundtrip (v : VertexMaterialData)
    (hil : v.ids.length = 4) (hwl : v.weights.length = 4)
    (hib : ∀ a ∈ v.ids, a < 256) (hwb : ∀ a ∈ v.weights, a < 256) :
    unpackBytes v.pack_ids = v.ids ∧ unpackBytes v.pack_weights = v.weights ∧
    (∀ i, i < 4 → byteAt v.pack_ids i = v.ids.getD i 0) ∧
    (∀ i, i < 4 → byteAt v.pack_weights i = v.weights.getD i 0) := by
  obtain ⟨a, b, c, d, hi⟩ := list_eq_four v.ids hil
  obtain ⟨e, f, g, h, hw⟩ := list_eq_four v.weights hwl
  rw [hi] at hib
  rw [hw] at hwb
  have ha := hib a (by simp)
  have hb := hib b (by simp)
  have hc := hib c (by simp)
  have hd := hib d (by simp)
  have he := hwb e (by simp)
  have hf := hwb f (by simp)
  have hg := hwb g (by simp)
  have hh := hwb h (by simp)
  refine ⟨?_, ?_, ?_, ?_⟩
  · simp only [unpackBytes, byteAt, VertexMaterialData.pack_ids, hi]
    norm_num
    omega
  · simp only [unpackBytes, byteAt, VertexMaterialData.pack_weights, hw]
    norm_num
    omega
  · intro i hi4
    interval_cases i <;>
      · simp only [byteAt, VertexMaterialData.pack_ids, hi]
        norm_num
        omega
  · intro i hi4
    interval_cases i <;>
      · simp only [byteAt, VertexMaterialData.pack_weights, hw]
        norm_num
        omega

/-- Witness for C7 at a concrete `VertexMaterialData`. -/
theorem claim_C7_pack_roundtrip_witness :
    unpackBytes (VertexMaterialData.pack_ids ⟨[1, 2, 3, 4], [250, 3, 2, 0]⟩) = [1, 2, 3, 4] ∧
    unpackBytes (VertexMaterialData.pack_weights ⟨[1, 2, 3, 4], [250, 3, 2, 0]⟩) =
      [250, 3, 2, 0] :=
  ⟨(claim_C7_pack_roundtrip ⟨[1, 2, 3, 4], [250, 3, 2, 0]⟩ (by simp) (by simp)
      (by intro a ha; fin_cases ha <;> norm_num)
      (by intro a ha; fin_cases ha <;> norm_num)).1,
   (claim_C7_pack_roundtrip ⟨[1, 2, 3, 4], [250, 3, 2, 0]⟩ (by simp) (by simp)
      (by intro a ha; fin_cases ha <;> norm_num)
      (by intro a ha; fin_cases ha <;> norm_num)).2.1⟩

/-- Counterexample to C3: the corner at the origin resolves to density
`-1/4`, and its recorded blend weight is `1/2 = clamp((1/4)*2, 0, 1)`, not
the spec formula `max(0, 1/4)^1 = 1/4`. -/
theorem claim_C3_counterexample :
    sample_density ⟨0, 0, 0⟩ exDensityC none = -(1/4) ∧
    vertexContributions ⟨1/2, 1/2, 1/2⟩ ⟨32, 32, 32⟩ exDensityC exMaterialC none none
      MaterialBlendSettings.default = [(7, 1/2)] ∧
    specCornerWeight (-(1/4)) = 1/4 ∧ ((1 : ℚ)/2) ≠ 1/4 := by
  refine ⟨?_, ?_, ?_, by norm_num⟩
  · norm_num [sample_density, inGrid, exDensityC]
  · norm_num [vertexContributions, gridPos, Vec3.mulV, Vec3.divV, fieldSizeVec, Vec3.floorV,
      IVec3.addOff, CORNER_OFFSETS, cornerEntry, sample_density, sample_material, inGrid,
      MaterialField.get, FIELD_SIZE, clamp01, MaterialBlendSettings.default, exDensityC,
      exMaterialC, List.filterMap_cons]
  · norm_num [specCornerWeight]

/-- C3 as amended: a corner with non-negative density contributes nothing;
a corner with negative density `d` contributes the weight
`clamp(-d * density_influence, 0, 1)` exactly when it exceeds
`weight_threshold`; the defaults are influence `2.0` (a multiplier, not an
exponent) and threshold `0.01`. -/
theorem claim_C3_amended (d : ℚ) (m : ℕ) (s : MaterialBlendSettings) :
    (0 ≤ d → cornerEntry d m s = none) ∧
    (d < 0 → cornerEntry d m s =
      if s.weight_threshold < clamp01 (-d * s.density_influence)
      then some (m, clamp01 (-d * s.density_influence)) else none) ∧
    MaterialBlendSettings.default.density_influence = 2 ∧
    MaterialBlendSettings.default.weight_threshold = 1/100 := by
  refine ⟨?_, ?_, rfl, rfl⟩
  · intro h0
    unfold cornerEntry
    exact if_neg (fun hcon => absurd hcon.1 (not_lt.2 h0))
  · intro hneg
    unfold cornerEntry
    by_cases ht : s.weight_threshold < clamp01 (-d * s.density_influence)
    · rw [if_pos ⟨hneg, ht⟩, if_pos ht]
    · rw [if_neg (fun hcon => ht hcon.2), if_neg ht]

/-- Witness for the amended C3. -/
theorem claim_C3_amended_witness :
    cornerEntry 1 3 MaterialBlendSettings.default = none ∧
    cornerEntry (-(1/4)) 3 MaterialBlendSettings.default = some (3, 1/2) :=
  ⟨(claim_C3_amended 1 3 MaterialBlendSettings.default).1 (by norm_num),
   ((claim_C3_amended (-(1/4)) 3 MaterialBlendSettings.default).2.1 (by norm_num)).trans
     (by norm_num [clamp01, MaterialBlendSettings.default])⟩

/-- Counterexample to C4: with the default settings, the returned blend for
a strong corner (material 1) and a faint corner (material 2) keeps a
nonzero weight `4`, strictly below the claimed minimum-weight threshold 5
— no post-normalization minimum-weight filter exists in the code. -/
theorem claim_C4_counterexample :
    compute_vertex_materials ⟨1/2, 1/2, 1/2⟩ ⟨32, 32, 32⟩ exDensityA exMaterialA
      none none MaterialBlendSettings.default = ⟨[1, 2, 0, 0], [251, 4, 0, 0]⟩ ∧
    (0 < 4 ∧ 4 < 5) := by
  refine ⟨?_, by norm_num⟩
  norm_num [compute_vertex_materials, vertexContributions, gridPos, Vec3.mulV, Vec3.divV,
    fieldSizeVec, Vec3.floorV, Vec3.roundV, IVec3.addOff, CORNER_OFFSETS, cornerEntry,
    sample_density, sample_material, inGrid, MaterialField.get, FIELD_SIZE, clamp01,
    MaterialBlendSettings.default, exDensityA, exMaterialA, merge_and_normalize_materials,
    List.insertionSort, List.orderedInsert, mergeAdjacent, mergeGo, byId, byWeightDesc,
    contributions_to_vertex_data, VertexMaterialData.blend2, rustRound, toU8,
    List.filterMap_cons, Int.floor_eq_iff]
  simp

/-- C4 as amended: the only minimum-weight filtering is the pre-merge
corner threshold — every contribution that enters merging strictly exceeds
`weight_threshold` (default `0.01`, a float fraction, not 5/255); filtered
weights are dropped before merging and the retained ones are not
renormalized afterwards by any integer threshold. -/
theorem claim_C4_amended (wp ms : Vec3) (df : DensityField) (mf : MaterialField)
    (nd : Option NeighborDensityFields) (nmm : Option BlendNeighborMaterialFields)
    (s : MaterialBlendSettings) (p : ℕ × ℚ)
    (hp : p ∈ vertexContributions wp ms df mf nd nmm s) :
    s.weight_threshold < p.2 ∧ MaterialBlendSettings.default.weight_threshold = 1/100 := by
  refine ⟨?_, rfl⟩
  unfold vertexContributions at hp
  obtain ⟨off, hoff, hent⟩ := List.mem_filterMap.1 hp
  unfold cornerEntry at hent
  dsimp only at hent
  split_ifs at hent with hcond
  cases hent
  exact hcond.2

/-- Witness for the amended C4: the faint corner's contribution `(2, 1/64)`
exceeds the default threshold `1/100`. -/
theorem claim_C4_amended_witness :
    MaterialBlendSettings.default.weight_threshold < (1/64 : ℚ) :=
  (claim_C4_amended ⟨1/2, 1/2, 1/2⟩ ⟨32, 32, 32⟩ exDensityA exMaterialA none none
    MaterialBlendSettings.default (2, 1/64) (by
      have hl : vertexContributions ⟨1/2, 1/2, 1/2⟩ ⟨32, 32, 32⟩ exDensityA exMaterialA
          none none MaterialBlendSettings.default = [(1, 1), (2, 1/64)] := by
        norm_num [vertexContributions, gridPos, Vec3.mulV, Vec3.divV, fieldSizeVec,
          Vec3.floorV, IVec3.addOff, CORNER_OFFSETS, cornerEntry, sample_density,
          sample_material, inGrid, MaterialField.get, FIELD_SIZE, clamp01,
          MaterialBlendSettings.default, exDensityA, exMaterialA, List.filterMap_cons]
      rw [hl]
      simp)).1

/-- C1 refuted on the code: `blend4`'s first three rounded weights can
round up past the remaining budget, the saturating accumulator absorbs the
excess, and the returned weights sum to 256; this is reachable from
`compute_vertex_materials` (exact-arithmetic model of the float pipeline). -/
theorem claim_C1_weight_sum_overflow :
    (VertexMaterialData.blend4 [9, 8, 7, 6] [255/2, 169/2, 85/2, 1/2]).weights.sum = 256 ∧
    compute_vertex_materials ⟨1/2, 1/2, 1/2⟩ ⟨32, 32, 32⟩ exDensityO exMaterialO none none
      MaterialBlendSettings.default = ⟨[1, 2, 3, 4], [128, 85, 43, 0]⟩ ∧
    ([128, 85, 43, 0] : List ℕ).sum = 256 := by
  refine ⟨?_, ?_, by norm_num⟩
  · norm_num [VertexMaterialData.blend4, VertexMaterialData.single, satAdd, toU8, rustRound,
      Int.floor_eq_iff]
    omega
  · norm_num [compute_vertex_materials, vertexContributions, gridPos, Vec3.mulV, Vec3.divV,
      fieldSizeVec, Vec3.floorV, Vec3.roundV, IVec3.addOff, CORNER_OFFSETS, cornerEntry,
      sample_density, sample_material, inGrid, MaterialField.get, FIELD_SIZE, clamp01,
      MaterialBlendSettings.default, exDensityO, exMaterialO, merge_and_normalize_materials,
      List.insertionSort, List.orderedInsert, mergeAdjacent, mergeGo, byId, byWeightDesc,
      contributions_to_vertex_data, VertexMaterialData.blend4, satAdd, rustRound, toU8,
      List.filterMap_cons, Int.floor_eq_iff]
    simp

/-- Counterexample to C2: the corner `(32,0,0)` lies outside the grid, its
density resolves to `-1/2` through the density neighbor cache, but with no
material neighbor cache its material is unresolvable — and it still
contributes the positive-weight entry `(0, 1)` with default material 0
instead of being excluded. -/
theorem claim_C2_counterexample :
    ¬ inGrid ⟨32, 0, 0⟩ ∧
    sample_density ⟨32, 0, 0⟩ exDensityB (some exNeighborDensB) = -(1/2) ∧
    vertexContributions ⟨63/2, 1/2, 1/2⟩ ⟨32, 32, 32⟩ exDensityB exMaterialB
      (some exNeighborDensB) none MaterialBlendSettings.default = [(5, 1), (0, 1)] ∧
    ((0 : ℚ) < 1) := by
  refine ⟨by norm_num [inGrid], ?_, ?_, by norm_num⟩
  · norm_num [sample_density, sample_density_neighbor, inGrid, exDensityB, exNeighborDensB,
      NeighborFace.idx, toU32, Option.or]
  · norm_num [vertexContributions, gridPos, Vec3.mulV, Vec3.divV, fieldSizeVec, Vec3.floorV,
      IVec3.addOff, CORNER_OFFSETS, cornerEntry, sample_density, sample_density_neighbor,
      sample_material, inGrid, MaterialField.get, FIELD_SIZE, clamp01,
      MaterialBlendSettings.default, exDensityB, exMaterialB, exNeighborDensB,
      NeighborFace.idx, toU32, Option.or, List.filterMap_cons, Int.floor_eq_iff]
    simp
    norm_num

/-- C2 as amended: a corner whose density is unresolvable is excluded (its
density defaults to the exterior `+1.0`, which never passes the `d < 0`
gate); but a corner whose density resolves negative while its material is
unresolvable falls back to the default material 0 and contributes a
positive-weight `(0, w)` entry — the lenient fallback, not exclusion. -/
theorem claim_C2_amended (voxel : IVec3) (df : DensityField) (mf : MaterialField)
    (nd : Option NeighborDensityFields) (s : MaterialBlendSettings) :
    (¬ inGrid voxel → (∀ ns, nd = some ns → sample_density_neighbor voxel ns = none) →
      ∀ m, cornerEntry (sample_density voxel df nd) m s = none) ∧
    (¬ inGrid voxel → sample_material voxel mf none = 0) ∧
    (¬ inGrid voxel → sample_density voxel df nd < 0 →
      s.weight_threshold < clamp01 (-(sample_density voxel df nd) * s.density_influence) →
      cornerEntry (sample_density voxel df nd) (sample_material voxel mf none) s =
        some (0, clamp01 (-(sample_density voxel df nd) * s.density_influence))) := by
  have hmat : ¬ inGrid voxel → sample_material voxel mf none = 0 := by
    intro hg
    unfold sample_material
    rw [if_neg hg]
  refine ⟨?_, hmat, ?_⟩
  · intro hg hns m
    have hd : sample_density voxel df nd = 1 := by
      unfold sample_density
      rw [if_neg hg]
      cases nd with
      | none => rfl
      | some ns =>
        dsimp only
        rw [hns ns rfl]
    rw [hd]
    unfold cornerEntry
    exact if_neg (fun hcon => absurd hcon.1 (by norm_num))
  · intro hg hd ht
    rw [hmat hg]
    unfold cornerEntry
    rw [if_pos ⟨hd, ht⟩]

/-- Witness for the amended C2 at the seam corner `(32,0,0)`. -/
theorem claim_C2_amended_witness :
    cornerEntry (sample_density ⟨32, 0, 0⟩ exDensityB (some exNeighborDensB))
      (sample_material ⟨32, 0, 0⟩ exMaterialB none) MaterialBlendSettings.default =
      some (0, 1) := by
  have hd : sample_density ⟨32, 0, 0⟩ exDensityB (some exNeighborDensB) = -(1/2) := by
    norm_num [sample_density, sample_density_neighbor, inGrid, exDensityB, exNeighborDensB,
      NeighborFace.idx, toU32, Option.or]
  refine ((claim_C2_amended ⟨32, 0, 0⟩ exDensityB exMaterialB (some exNeighborDensB)
    MaterialBlendSettings.default).2.2 (by norm_num [inGrid]) (by rw [hd]; norm_num)
    (by rw [hd]; norm_num [clamp01, MaterialBlendSettings.default])).trans ?_
  rw [hd]
  norm_num [clamp01, MaterialBlendSettings.default]

/-- The wrapping cast agrees with `toNat` below `2^32`. -/
theorem toU32_coe_nat (n : ℕ) (h : n < 4294967296) : toU32 (n : ℤ) = n := by
  unfold toU32
  omega

/-- An `i32`-ranged value that fails the `[0, 32)` bounds check wraps to an
in-plane coordinate at least 32. -/
theorem toU32_oob (v : ℤ) (hlo : -2147483648 ≤ v) (hhi : v < 2147483648)
    (hoob : ¬(0 ≤ v ∧ v < 32)) : 32 ≤ toU32 v := by
  unfold toU32
  omega

/-- A slice with the grid's in-plane sizes rejects any out-of-range
in-plane coordinate. -/
theorem slice_get_oob (s : MaterialNeighborSlice) (h : s.size_a = 32 ∧ s.size_b = 32)
    (d a b : ℕ) (hab : 32 ≤ a ∨ 32 ≤ b) : s.get d a b = none := by
  unfold MaterialNeighborSlice.get
  rw [if_pos]
  rcases hab with h2 | h2
  · exact Or.inr (Or.inl (by omega))
  · exact Or.inr (Or.inr (by omega))

/-- A face probe of `get_extended` whose in-plane coordinate is out of
range either falls through or returns `none`. -/
theorem probe_none_or (nm : NeighborMaterialFields) (i : Fin 6) (dep : ℕ) (u v : ℤ)
    (hwf : ∀ j s, nm.neighbors j = some s → s.size_a = 32 ∧ s.size_b = 32)
    (huv : 32 ≤ toU32 u ∨ 32 ≤ toU32 v) (dcond : Prop) [Decidable dcond] :
    (if dcond then (nm.neighbors i).map (fun s => s.get dep (toU32 u) (toU32 v)) else none) =
        none ∨
    (if dcond then (nm.neighbors i).map (fun s => s.get dep (toU32 u) (toU32 v)) else none) =
        some none := by
  by_cases hd : dcond
  · rw [if_pos hd]
    cases hsl : nm.neighbors i with
    | none => exact Or.inl rfl
    | some s =>
      refine Or.inr ?_
      rw [Option.map_some', slice_get_oob s (hwf i s hsl) dep _ _ huv]
  · exact Or.inl (if_neg hd)

/-- Chained fall-through of three face steps that each fall through or
return `none`. -/
theorem stepOr_none (E1 E2 E3 : Option (Option ℕ))
    (h1 : E1 = none ∨ E1 = some none) (h2 : E2 = none ∨ E2 = some none)
    (h3 : E3 = none ∨ E3 = some none) :
    stepOr E1 (stepOr E2 (stepOr E3 none)) = none := by
  rcases h1 with h1 | h1 <;> rcases h2 with h2 | h2 <;> rcases h3 with h3 | h3 <;>
    simp [stepOr, h1, h2, h3]

/-- C8: neighbor slices sample the opposite boundary of the adjacent chunk
— a `+X` cache slot filled from a neighbor field's near-X boundary
(`from_field F NegX`) makes `get_extended (32+d) y z` return
`some (F.get d y z)`; and an out-of-bounds coordinate whose relevant face
has no cached slice yields `none`, never a default value. -/
theorem claim_C8_opposite_boundary :
    (∀ (F field : MaterialField) (nm : NeighborMaterialFields) (y z d : ℕ),
      y < 32 → z < 32 → d < 2 →
      nm.neighbors NeighborFace.PosX.idx =
        some (MaterialNeighborSlice.from_field F NeighborFace.NegX) →
      nm.get_extended field (32 + (d : ℤ)) (y : ℤ) (z : ℤ) = some (F.get d y z)) ∧
    (∀ (field : MaterialField) (nm : NeighborMaterialFields) (x y z : ℤ),
      0 ≤ y → y < 32 → 0 ≤ z → z < 32 →
      ((32 ≤ x → nm.neighbors NeighborFace.PosX.idx = none →
          nm.get_extended field x y z = none) ∧
        (x < 0 → nm.neighbors NeighborFace.NegX.idx = none →
          nm.get_extended field x y z = none))) ∧
    (∀ (field : MaterialField) (nm : NeighborMaterialFields) (x y z : ℤ),
      0 ≤ x → x < 32 → 0 ≤ z → z < 32 →
      ((32 ≤ y → nm.neighbors NeighborFace.PosY.idx = none →
          nm.get_extended field x y z = none) ∧
        (y < 0 → nm.neighbors NeighborFace.NegY.idx = none →
          nm.get_extended field x y z = none))) ∧
    (∀ (field : MaterialField) (nm : NeighborMaterialFields) (x y z : ℤ),
      0 ≤ x → x < 32 → 0 ≤ y → y < 32 →
      ((32 ≤ z → nm.neighbors NeighborFace.PosZ.idx = none →
          nm.get_extended field x y z = none) ∧
        (z < 0 → nm.neighbors NeighborFace.NegZ.idx = none →
          nm.get_extended field x y z = none))) := by
  refine ⟨?_, ?_, ?_, ?_⟩
  · intro F field nm y z d hy hz hd hslice
    unfold NeighborMaterialFields.get_extended
    rw [if_neg (by omega)]
    rw [if_pos (show (32:ℤ) ≤ 32 + (d:ℤ) by omega)]
    have hdep : ((32 + (d:ℤ)) - 32).toNat = d := by omega
    rw [hdep, if_pos (show d < NEIGHBOR_DEPTH by unfold NEIGHBOR_DEPTH; omega), hslice,
      toU32_coe_nat y (by omega), toU32_coe_nat z (by omega), Option.map_some']
    show (MaterialNeighborSlice.from_field F NeighborFace.NegX).get d y z = some (F.get d y z)
    unfold MaterialNeighborSlice.get MaterialNeighborSlice.from_field
    rw [if_neg (by unfold NEIGHBOR_DEPTH; dsimp only; omega)]
    rfl
  · intro field nm x y z hy0 hy hz0 hz
    constructor
    · intro h32 hslice
      unfold NeighborMaterialFields.get_extended
      rw [if_neg (by omega), if_pos h32]
      simp only [hslice, Option.map_none', ite_self]
      rw [if_neg (show ¬(32:ℤ) ≤ y by omega), if_neg (show ¬y < 0 by omega),
        if_neg (show ¬(32:ℤ) ≤ z by omega), if_neg (show ¬z < 0 by omega)]
      rfl
    · intro hneg hslice
      unfold NeighborMaterialFields.get_extended
      rw [if_neg (by omega), if_neg (show ¬(32:ℤ) ≤ x by omega), if_pos hneg]
      simp only [hslice, Option.map_none', ite_self]
      rw [if_neg (show ¬(32:ℤ) ≤ y by omega), if_neg (show ¬y < 0 by omega),
        if_neg (show ¬(32:ℤ) ≤ z by omega), if_neg (show ¬z < 0 by omega)]
      rfl
  · intro field nm x y z hx0 hx hz0 hz
    constructor
    · intro h32 hslice
      unfold NeighborMaterialFields.get_extended
      rw [if_neg (by omega), if_neg (show ¬(32:ℤ) ≤ x by omega),
        if_neg (show ¬x < 0 by omega), if_pos h32]
      simp only [hslice, Option.map_none', ite_self]
      rw [if_neg (show ¬(32:ℤ) ≤ z by omega), if_neg (show ¬z < 0 by omega)]
      rfl
    · intro hneg hslice
      unfold NeighborMaterialFields.get_extended
      rw [if_neg (by omega), if_neg (show ¬(32:ℤ) ≤ x by omega),
        if_neg (show ¬x < 0 by omega), if_neg (show ¬(32:ℤ) ≤ y by omega), if_pos hneg]
      simp only [hslice, Option.map_none', ite_self]
      rw [if_neg (show ¬(32:ℤ) ≤ z by omega), if_neg (show ¬z < 0 by omega)]
      rfl
  · intro field nm x y z hx0 hx hy0 hy
    constructor
    · intro h32 hslice
      unfold NeighborMaterialFields.get_extended
      rw [if_neg (by omega), if_neg (show ¬(32:ℤ) ≤ x by omega),
        if_neg (show ¬x < 0 by omega), if_neg (show ¬(32:ℤ) ≤ y by omega),
        if_neg (show ¬y < 0 by omega), if_pos h32]
      simp only [hslice, Option.map_none', ite_self]
      rfl
    · intro hneg hslice
      unfold NeighborMaterialFields.get_extended
      rw [if_neg (by omega), if_neg (show ¬(32:ℤ) ≤ x by omega),
        if_neg (show ¬x < 0 by omega), if_neg (show ¬(32:ℤ) ≤ y by omega),
        if_neg (show ¬y < 0 by omega), if_neg (show ¬(32:ℤ) ≤ z by omega), if_pos hneg]
      simp only [hslice, Option.map_none', ite_self]
      rfl

/-- Witness for C8: the `+X` slice of the coordinate-encoding field
resolves `(32+1, 3, 4)` to the neighbor's voxel `(1, 3, 4)`; with an empty
cache an out-of-bounds probe is `none`. -/
theorem claim_C8_opposite_boundary_witness :
    NeighborMaterialFields.get_extended exNeighborMatB exMaterial9 (32 + (1:ℤ)) 3 4 =
      some (MaterialField.get exMaterialCoord 1 3 4) ∧
    NeighborMaterialFields.get_extended exNeighborMatEmpty exMaterial9 40 3 4 = none :=
  ⟨claim_C8_opposite_boundary.1 exMaterialCoord exMaterial9 exNeighborMatB 3 4 1
      (by norm_num) (by norm_num) (by norm_num) rfl,
   (claim_C8_opposite_boundary.2.1 exMaterial9 exNeighborMatEmpty 40 3 4
      (by norm_num) (by norm_num) (by norm_num) (by norm_num)).1 (by norm_num) rfl⟩

/-- C10: a position out of bounds on two or three axes simultaneously (an
edge- or corner-diagonal neighbor) always yields `none` from
`get_extended`, whatever face slices are cached, because every face
slice's bounds check rejects the other axis's out-of-range in-plane
coordinate. -/
theorem claim_C10_multi_axis_none (nm : NeighborMaterialFields) (field : MaterialField)
    (x y z : ℤ)
    (hwf : ∀ i s, nm.neighbors i = some s → s.size_a = 32 ∧ s.size_b = 32)
    (hxr : -2147483648 ≤ x ∧ x < 2147483648)
    (hyr : -2147483648 ≤ y ∧ y < 2147483648)
    (hzr : -2147483648 ≤ z ∧ z < 2147483648)
    (hoob2 : (¬(0 ≤ x ∧ x < 32) ∧ ¬(0 ≤ y ∧ y < 32)) ∨
      (¬(0 ≤ x ∧ x < 32) ∧ ¬(0 ≤ z ∧ z < 32)) ∨
      (¬(0 ≤ y ∧ y < 32) ∧ ¬(0 ≤ z ∧ z < 32))) :
    nm.get_extended field x y z = none := by
  have hyz : 32 ≤ toU32 y ∨ 32 ≤ toU32 z := by
    rcases hoob2 with ⟨_, h⟩ | ⟨_, h⟩ | ⟨h, _⟩
    · exact Or.inl (toU32_oob y hyr.1 hyr.2 h)
    · exact Or.inr (toU32_oob z hzr.1 hzr.2 h)
    · exact Or.inl (toU32_oob y hyr.1 hyr.2 h)
  have hxz : 32 ≤ toU32 x ∨ 32 ≤ toU32 z := by
    rcases hoob2 with ⟨h, _⟩ | ⟨h, _⟩ | ⟨_, h⟩
    · exact Or.inl (toU32_oob x hxr.1 hxr.2 h)
    · exact Or.inl (toU32_oob x hxr.1 hxr.2 h)
    · exact Or.inr (toU32_oob z hzr.1 hzr.2 h)
  have hxy : 32 ≤ toU32 x ∨ 32 ≤ toU32 y := by
    rcases hoob2 with ⟨h, _⟩ | ⟨h, _⟩ | ⟨h, _⟩
    · exact Or.inl (toU32_oob x hxr.1 hxr.2 h)
    · exact Or.inl (toU32_oob x hxr.1 hxr.2 h)
    · exact Or.inr (toU32_oob y hyr.1 hyr.2 h)
  unfold NeighborMaterialFields.get_extended
  rw [if_neg (by rcases hoob2 with ⟨h, _⟩ | ⟨h, _⟩ | ⟨h, _⟩ <;> tauto)]
  apply stepOr_none
  · by_cases h1 : (32:ℤ) ≤ x
    · rw [if_pos h1]
      exact probe_none_or nm _ _ y z hwf hyz _
    · rw [if_neg h1]
      by_cases h2 : x < 0
      · rw [if_pos h2]
        exact probe_none_or nm _ _ y z hwf hyz _
      · rw [if_neg h2]
        exact Or.inl rfl
  · by_cases h1 : (32:ℤ) ≤ y
    · rw [if_pos h1]
      exact probe_none_or nm _ _ x z hwf hxz _
    · rw [if_neg h1]
      by_cases h2 : y < 0
      · rw [if_pos h2]
        exact probe_none_or nm _ _ x z hwf hxz _
      · rw [if_neg h2]
        exact Or.inl rfl
  · by_cases h1 : (32:ℤ) ≤ z
    · rw [if_pos h1]
      exact probe_none_or nm _ _ x y hwf hxy _
    · rw [if_neg h1]
      by_cases h2 : z < 0
      · rw [if_pos h2]
        exact probe_none_or nm _ _ x y hwf hxy _
      · rw [if_neg h2]
        exact Or.inl rfl

/-- Witness for C10: with every face slot cached, the edge-diagonal probe
`(33, -1, 5)` still yields `none`. -/
theorem claim_C10_multi_axis_none_witness :
    NeighborMaterialFields.get_extended exNeighborMatB exMaterial9 33 (-1) 5 = none :=
  claim_C10_multi_axis_none exNeighborMatB exMaterial9 33 (-1) 5
    (fun i s hs => by
      injection hs with h
      subst h
      exact ⟨rfl, rfl⟩)
    (by norm_num) (by norm_num) (by norm_num)
    (Or.inl ⟨by norm_num, by norm_num⟩)

/-- Round half away from zero lands on the floor or the ceiling-by-one of
its argument. -/
theorem rustRound_mem (q : ℚ) : rustRound q = ⌊q⌋ ∨ rustRound q = ⌊q⌋ + 1 := by
  unfold rustRound
  split_ifs with h
  · have h1 : ⌊q⌋ ≤ ⌊q + 1/2⌋ := Int.floor_le_floor (by linarith)
    have h2 : ⌊q + 1/2⌋ ≤ ⌊q⌋ + 1 := by
      rw [Int.floor_le_iff]
      push_cast
      have := Int.lt_floor_add_one q
      linarith
    omega
  · have hub : ⌊-q + 1/2⌋ ≤ ⌈-q⌉ := by
      rw [Int.floor_le_iff]
      have := Int.le_ceil (-q)
      linarith
    have hlb : ⌈-q⌉ - 1 ≤ ⌊-q + 1/2⌋ := by
      rw [Int.le_floor]
      have := Int.ceil_lt_add_one (-q)
      push_cast
      linarith
    rw [Int.ceil_neg] at hub hlb
    omega

/-- Round half away from zero is within a half of its argument. -/
theorem rustRound_half (q : ℚ) : |q - rustRound q| ≤ 1/2 := by
  unfold rustRound
  split_ifs with h
  · have h1 : ((⌊q + 1/2⌋ : ℤ) : ℚ) ≤ q + 1/2 := Int.floor_le _
    have h2 : q + 1/2 < (⌊q + 1/2⌋ : ℤ) + 1 := Int.lt_floor_add_one _
    rw [abs_le]
    constructor <;> linarith
  · have h1 : ((⌊-q + 1/2⌋ : ℤ) : ℚ) ≤ -q + 1/2 := Int.floor_le _
    have h2 : -q + 1/2 < (⌊-q + 1/2⌋ : ℤ) + 1 := Int.lt_floor_add_one _
    rw [abs_le]
    constructor <;> push_cast <;> linarith

/-- `rustRound` picks the nearer of the two integer corners bounding its
argument. -/
theorem rustRound_nearest (q : ℚ) (c : ℤ) (hc : c = ⌊q⌋ ∨ c = ⌊q⌋ + 1) :
    |q - rustRound q| ≤ |q - (c : ℚ)| := by
  have h1 : ((⌊q⌋ : ℤ) : ℚ) ≤ q := Int.floor_le q
  have h2 : q < ((⌊q⌋ : ℤ) : ℚ) + 1 := Int.lt_floor_add_one q
  have hh := rustRound_half q
  have hq1 : |q - ((⌊q⌋ : ℤ) : ℚ)| = q - ((⌊q⌋ : ℤ) : ℚ) := abs_of_nonneg (by linarith)
  have hq2 : |q - ((⌊q⌋ + 1 : ℤ) : ℚ)| = ((⌊q⌋ : ℤ) : ℚ) + 1 - q := by
    rw [abs_of_nonpos (by push_cast; linarith)]
    push_cast
    ring
  rcases rustRound_mem q with hr | hr <;> rcases hc with hc | hc
  · rw [hr, hc]
  · rw [hr] at hh
    rw [hr, hc, hq1, hq2]
    rw [hq1] at hh
    linarith
  · rw [hr] at hh
    rw [hr, hc, hq1, hq2]
    rw [hq2] at hh
    linarith
  · rw [hr, hc]

/-- C6: when every corner contributes zero weight (in particular when all
8 corner densities are non-negative, e.g. `+1.0`), the engine returns the
single-material fallback for the rounded (componentwise nearest) grid
position — whose material defaults to 0 when unresolvable, by
`sample_material` — and `single id` is always
`ids = [id,0,0,0], weights = [255,0,0,0]`, never a zero-weight blend. -/
theorem claim_C6_exterior_fallback (wp ms : Vec3) (df : DensityField) (mf : MaterialField)
    (nd : Option NeighborDensityFields) (nmm : Option BlendNeighborMaterialFields)
    (s : MaterialBlendSettings)
    (hext : ∀ off ∈ CORNER_OFFSETS,
      0 ≤ sample_density ((gridPos wp ms).floorV.addOff off) df nd) :
    compute_vertex_materials wp ms df mf nd nmm s =
      VertexMaterialData.single (sample_material (gridPos wp ms).roundV mf nmm) ∧
    (∀ id, VertexMaterialData.single id =
      { ids := [id, 0, 0, 0], weights := [255, 0, 0, 0] }) ∧
    (∀ (q : ℚ) (c : ℤ), c = ⌊q⌋ ∨ c = ⌊q⌋ + 1 → |q - rustRound q| ≤ |q - (c : ℚ)|) := by
  refine ⟨?_, fun id => rfl, fun q c hc => rustRound_nearest q c hc⟩
  have hnil : vertexContributions wp ms df mf nd nmm s = [] := by
    unfold vertexContributions
    rw [List.filterMap_eq_nil_iff]
    intro off hoff
    dsimp only
    unfold cornerEntry
    exact if_neg (fun hcon => absurd hcon.1 (not_lt.2 (hext off hoff)))
  unfold compute_vertex_materials
  dsimp only
  rw [hnil, if_pos rfl]

/-- Witness for C6: a fully exterior cube falls back to the single
material of the nearest voxel. -/
theorem claim_C6_exterior_fallback_witness :
    compute_vertex_materials ⟨1/2, 1/2, 1/2⟩ ⟨32, 32, 32⟩ exDensityExt exMaterial9 none none
      MaterialBlendSettings.default = VertexMaterialData.single 9 :=
  ((claim_C6_exterior_fallback ⟨1/2, 1/2, 1/2⟩ ⟨32, 32, 32⟩ exDensityExt exMaterial9 none
      none MaterialBlendSettings.default (by
        intro off hoff
        unfold sample_density
        split_ifs <;> simp [exDensityExt])).1).trans (by
    norm_num [sample_material, inGrid, gridPos, Vec3.mulV, Vec3.divV, fieldSizeVec,
      Vec3.roundV, rustRound, exMaterial9, MaterialField.get, FIELD_SIZE, Int.floor_eq_iff])

/-- Unfolding `groupedWeight` over a cons cell. -/
theorem groupedWeight_cons (a : ℕ) (b : ℚ) (l : List (ℕ × ℚ)) (i : ℕ) :
    groupedWeight ((a, b) :: l) i = (if a = i then b else 0) + groupedWeight l i := by
  by_cases h : a = i
  · simp [groupedWeight, List.filter_cons, h]
  · simp [groupedWeight, List.filter_cons, h]

/-- A list containing no pair of a given id groups weight zero for it. -/
theorem groupedWeight_eq_zero (l : List (ℕ × ℚ)) (i : ℕ) (h : ∀ p ∈ l, p.1 ≠ i) :
    groupedWeight l i = 0 := by
  induction l with
  | nil => simp [groupedWeight]
  | cons p t ih =>
    obtain ⟨a, b⟩ := p
    rw [groupedWeight_cons, if_neg (h (a, b) (List.mem_cons_self _ _)),
      ih (fun q hq => h q (List.mem_cons_of_mem _ hq))]
    ring

/-- Permutation invariance of grouped weights. -/
theorem groupedWeight_perm (l₁ l₂ : List (ℕ × ℚ)) (h : l₁.Perm l₂) (i : ℕ) :
    groupedWeight l₁ i = groupedWeight l₂ i :=
  ((h.filter _).map _).sum_eq

/-- Permutation invariance of the total weight. -/
theorem totalWeight_perm (l₁ l₂ : List (ℕ × ℚ)) (h : l₁.Perm l₂) :
    totalWeight l₁ = totalWeight l₂ :=
  (h.map _).sum_eq

/-- The merge loop of `merge_and_normalize_materials` on an id-sorted tail
computes, for each distinct id in order, the summed weight of that id. -/
theorem mergeGo_eq (t : List (ℕ × ℚ)) : ∀ (m : ℕ) (w : ℚ), t.Pairwise byId →
    (∀ p ∈ t, m ≤ p.1) →
    mergeGo m w t =
      (((m, w) :: t).map Prod.fst).dedup.map
        (fun i => (i, groupedWeight ((m, w) :: t) i)) := by
  induction t with
  | nil =>
    intro m w _ _
    simp [mergeGo, groupedWeight]
  | cons p t2 ih =>
    intro m w hsort hlb
    obtain ⟨m2, w2⟩ := p
    have hsort2 : t2.Pairwise byId := List.Pairwise.of_cons hsort
    have hm2 : ∀ q ∈ t2, m2 ≤ q.1 := fun q hq => (List.pairwise_cons.1 hsort).1 q hq
    by_cases he : m2 = m
    · subst he
      rw [mergeGo, if_pos rfl, ih m2 (w + w2) hsort2 hm2]
      have hids : (((m2, w) :: (m2, w2) :: t2).map Prod.fst).dedup =
          (((m2, w + w2) :: t2).map Prod.fst).dedup := by
        simp only [List.map_cons]
        rw [List.dedup_cons_of_mem (List.mem_cons_self _ _)]
      rw [← hids]
      apply List.map_congr_left
      intro i _
      rw [groupedWeight_cons, groupedWeight_cons, groupedWeight_cons]
      by_cases hi : m2 = i
      · rw [if_pos hi, if_pos hi, if_pos hi]
        ring
      · rw [if_neg hi, if_neg hi, if_neg hi]
        ring
    · have hlt : m < m2 := lt_of_le_of_ne (hlb (m2, w2) (List.mem_cons_self _ _))
        (fun hc => he hc.symm)
      rw [mergeGo, if_neg he, ih m2 w2 hsort2 hm2]
      have hnotm : (m : ℕ) ∉ (m2 :: t2.map Prod.fst) := by
        intro hmem
        rcases List.mem_cons.1 hmem with hq' | hq'
        · omega
        · rcases List.mem_map.1 hq' with ⟨q, hq, hq1⟩
          have := hm2 q hq
          omega
      simp only [List.map_cons]
      rw [List.dedup_cons_of_not_mem hnotm, List.map_cons]
      congr 1
      · have hz : groupedWeight ((m2, w2) :: t2) m = 0 := by
          apply groupedWeight_eq_zero
          intro q hq
          rcases List.mem_cons.1 hq with hq' | hq'
          · subst hq'
            omega
          · have := hm2 q hq'
            omega
        rw [groupedWeight_cons, if_pos rfl, hz]
        ring
      · apply List.map_congr_left
        intro i hi
        have him : i ∈ m2 :: t2.map Prod.fst := List.mem_dedup.1 hi
        have hne : m ≠ i := by
          intro hc
          exact hnotm (hc ▸ him)
        conv_rhs => rw [groupedWeight_cons]
        rw [if_neg hne, zero_add]

/-- The adjacent-duplicate merge of an id-sorted list is the canonical
grouping: distinct ids in order, each with its summed weight. -/
theorem mergeAdjacent_eq (s : List (ℕ × ℚ)) (hs : s.Pairwise byId) :
    mergeAdjacent s =
      (s.map Prod.fst).dedup.map (fun i => (i, groupedWeight s i)) := by
  cases s with
  | nil => simp [mergeAdjacent]
  | cons p t =>
    obtain ⟨m, w⟩ := p
    rw [mergeAdjacent]
    exact mergeGo_eq t m w (List.Pairwise.of_cons hs)
      (fun q hq => (List.pairwise_cons.1 hs).1 q hq)

/-- Unfolding `totalWeight` over a cons cell. -/
theorem totalWeight_cons (a : ℕ × ℚ) (l : List (ℕ × ℚ)) :
    totalWeight (a :: l) = a.2 + totalWeight l := by
  simp [totalWeight]

/-- The merge loop preserves the total weight. -/
theorem mergeGo_sum (t : List (ℕ × ℚ)) : ∀ (m : ℕ) (w : ℚ),
    totalWeight (mergeGo m w t) = w + totalWeight t := by
  induction t with
  | nil => intro m w; simp [mergeGo, totalWeight]
  | cons p t2 ih =>
    intro m w
    obtain ⟨m2, w2⟩ := p
    rw [mergeGo]
    by_cases he : m2 = m
    · rw [if_pos he, ih m (w + w2), totalWeight_cons]
      dsimp only
      ring
    · rw [if_neg he, totalWeight_cons, ih m2 w2, totalWeight_cons]

/-- Merging preserves the total weight. -/
theorem mergeAdjacent_sum (s : List (ℕ × ℚ)) :
    totalWeight (mergeAdjacent s) = totalWeight s := by
  cases s with
  | nil => rfl
  | cons p t =>
    obtain ⟨m, w⟩ := p
    rw [mergeAdjacent, mergeGo_sum, totalWeight_cons]

/-- The sorted id list of a contribution multiset is canonical: two
permuted inputs have identical stable id-sorts after projecting ids. -/
theorem sortById_map_fst_eq (l₁ l₂ : List (ℕ × ℚ)) (h : l₁.Perm l₂) :
    (List.insertionSort byId l₁).map Prod.fst =
      (List.insertionSort byId l₂).map Prod.fst := by
  apply List.eq_of_perm_of_sorted (r := (· ≤ · : ℕ → ℕ → Prop))
  · exact ((List.perm_insertionSort byId l₁).map _).trans
      ((h.map _).trans ((List.perm_insertionSort byId l₂).map _).symm)
  · exact List.pairwise_map.2 ((List.sorted_insertionSort byId l₁).imp (fun hab => hab))
  · exact List.pairwise_map.2 ((List.sorted_insertionSort byId l₂).imp (fun hab => hab))

/-- A nondecreasing duplicate-free list is strictly increasing. -/
theorem pairwise_lt_of_le_nodup (L : List ℕ) (h1 : L.Pairwise (· ≤ ·)) (h2 : L.Nodup) :
    L.Pairwise (· < ·) := by
  induction L with
  | nil => exact List.Pairwise.nil
  | cons a t ih =>
    rw [List.pairwise_cons] at h1 ⊢
    rw [List.nodup_cons] at h2
    refine ⟨fun b hb => lt_of_le_of_ne (h1.1 b hb) (fun hc => h2.1 (hc ▸ hb)), ih h1.2 h2.2⟩

/-- Inserting below-everything ids keeps the stable weight-descending
order with ascending-id tie-breaks. -/
theorem ordInsert_pairwise (a : ℕ × ℚ) (s : List (ℕ × ℚ)) (hs : s.Pairwise wOrd)
    (ha : ∀ b ∈ s, a.1 < b.1) : (List.orderedInsert byWeightDesc a s).Pairwise wOrd := by
  induction s with
  | nil => simp
  | cons b t ih =>
    rw [List.orderedInsert]
    by_cases hle : byWeightDesc a b
    · rw [if_pos hle, List.pairwise_cons]
      refine ⟨?_, hs⟩
      intro x hx
      rcases List.mem_cons.1 hx with hx' | hx'
      · subst hx'
        rcases lt_or_eq_of_le hle with hlt | heq
        · exact Or.inl hlt
        · exact Or.inr ⟨heq, ha x (List.mem_cons_self _ _)⟩
      · have hbx := (List.pairwise_cons.1 hs).1 x hx'
        have hxb : x.2 ≤ b.2 := by
          rcases hbx with hlt | ⟨heq, _⟩
          · exact le_of_lt hlt
          · exact le_of_eq heq
        have hxa : x.2 ≤ a.2 := le_trans hxb hle
        rcases lt_or_eq_of_le hxa with hlt | heq
        · exact Or.inl hlt
        · exact Or.inr ⟨heq, ha x (List.mem_cons_of_mem _ hx')⟩
    · rw [if_neg hle, List.pairwise_cons]
      have hba : a.2 < b.2 := lt_of_not_le hle
      refine ⟨?_, ih (List.pairwise_cons.1 hs).2 (fun q hq => ha q (List.mem_cons_of_mem _ hq))⟩
      intro x hx
      rcases (List.mem_orderedInsert byWeightDesc).1 hx with hx' | hx'
      · subst hx'
        exact Or.inl hba
      · exact (List.pairwise_cons.1 hs).1 x hx'

/-- The stable weight-descending sort of a strictly-ascending-id list is
ordered by weight descending with ascending-id tie-breaks. -/
theorem sortW_pairwise (s : List (ℕ × ℚ)) (hs : s.Pairwise (fun a b => a.1 < b.1)) :
    (List.insertionSort byWeightDesc s).Pairwise wOrd := by
  induction s with
  | nil => exact List.Pairwise.nil
  | cons a t ih =>
    rw [List.insertionSort]
    rw [List.pairwise_cons] at hs
    refine ordInsert_pairwise a _ (ih hs.2) ?_
    intro b hb
    exact hs.1 b ((List.perm_insertionSort byWeightDesc t).mem_iff.1 hb)

/-- Merging after the stable id-sort is a function of the contribution
multiset alone. -/
theorem mergeAdjacent_sortById_eq (l₁ l₂ : List (ℕ × ℚ)) (h : l₁.Perm l₂) :
    mergeAdjacent (List.insertionSort byId l₁) = mergeAdjacent (List.insertionSort byId l₂) := by
  rw [mergeAdjacent_eq _ (List.sorted_insertionSort byId l₁),
    mergeAdjacent_eq _ (List.sorted_insertionSort byId l₂), sortById_map_fst_eq l₁ l₂ h]
  apply List.map_congr_left
  intro i _
  rw [groupedWeight_perm _ l₁ (List.perm_insertionSort byId l₁) i,
    groupedWeight_perm l₁ l₂ h i,
    ← groupedWeight_perm _ l₂ (List.perm_insertionSort byId l₂) i]

/-- `merge_and_normalize_materials` in closed form: the stable
weight-descending sort of the canonical id-grouping, normalized by the
total input weight when positive. -/
theorem mnm_characterize (l : List (ℕ × ℚ)) :
    merge_and_normalize_materials l =
      if 0 < totalWeight l then
        (List.insertionSort byWeightDesc (mergeAdjacent (List.insertionSort byId l))).map
          (fun p => (p.1, p.2 / totalWeight l))
      else
        List.insertionSort byWeightDesc (mergeAdjacent (List.insertionSort byId l)) := by
  have hS : ((List.insertionSort byWeightDesc (mergeAdjacent
      (List.insertionSort byId l))).map Prod.snd).sum = totalWeight l := by
    have h1 : totalWeight (List.insertionSort byWeightDesc (mergeAdjacent
        (List.insertionSort byId l))) = totalWeight (mergeAdjacent (List.insertionSort byId l)) :=
      totalWeight_perm _ _ (List.perm_insertionSort _ _)
    have h2 := mergeAdjacent_sum (List.insertionSort byId l)
    have h3 := totalWeight_perm _ _ (List.perm_insertionSort byId l)
    exact h1.trans (h2.trans h3)
  unfold merge_and_normalize_materials
  dsimp only
  rw [hS]

/-- C5 (order independence): merging and normalizing is invariant under
permutation of the contributions. -/
theorem merge_and_normalize_perm (l₁ l₂ : List (ℕ × ℚ)) (h : l₁.Perm l₂) :
    merge_and_normalize_materials l₁ = merge_and_normalize_materials l₂ := by
  rw [mnm_characterize l₁, mnm_characterize l₂, mergeAdjacent_sortById_eq l₁ l₂ h,
    totalWeight_perm l₁ l₂ h]

/-- Structural facts about `merge_and_normalize_materials`: distinct output
ids, ids preserved as a set, per-id summed-then-normalized weights, and the
weight-descending / ascending-id-tie output order. -/
theorem mnm_facts (l : List (ℕ × ℚ)) :
    ((merge_and_normalize_materials l).map Prod.fst).Nodup ∧
    (∀ i, i ∈ (merge_and_normalize_materials l).map Prod.fst ↔ i ∈ l.map Prod.fst) ∧
    (0 < totalWeight l → ∀ p ∈ merge_and_normalize_materials l,
      p.2 = groupedWeight l p.1 / totalWeight l) ∧
    (merge_and_normalize_materials l).Pairwise wOrd := by
  have hsP : (List.insertionSort byId l).Pairwise byId := List.sorted_insertionSort byId l
  have hsperm := List.perm_insertionSort byId l
  have hmerged := mergeAdjacent_eq _ hsP
  have hswperm := List.perm_insertionSort byWeightDesc (mergeAdjacent (List.insertionSort byId l))
  have hcompfst : (Prod.fst ∘ fun i => (i, groupedWeight (List.insertionSort byId l) i)) =
      (id : ℕ → ℕ) := rfl
  have hfst : ∀ S : ℚ, ((List.insertionSort byWeightDesc (mergeAdjacent
      (List.insertionSort byId l))).map (fun p => (p.1, p.2 / S))).map Prod.fst =
      (List.insertionSort byWeightDesc (mergeAdjacent (List.insertionSort byId l))).map
        Prod.fst := by
    intro S
    rw [List.map_map]
    rfl
  have hmemids : ∀ i, i ∈ (List.insertionSort byWeightDesc (mergeAdjacent
      (List.insertionSort byId l))).map Prod.fst ↔ i ∈ l.map Prod.fst := by
    intro i
    rw [(hswperm.map Prod.fst).mem_iff, hmerged, List.map_map, hcompfst, List.map_id,
      List.mem_dedup]
    exact (hsperm.map Prod.fst).mem_iff
  have hnodupsw : ((List.insertionSort byWeightDesc (mergeAdjacent
      (List.insertionSort byId l))).map Prod.fst).Nodup := by
    refine ((hswperm.map Prod.fst).nodup_iff).2 ?_
    rw [hmerged, List.map_map, hcompfst, List.map_id]
    exact List.nodup_dedup _
  have hmapP : ((List.insertionSort byId l).map Prod.fst).Pairwise
      (· ≤ · : ℕ → ℕ → Prop) := List.pairwise_map.2 (hsP.imp (fun hab => hab))
  have hidslt : (((List.insertionSort byId l).map Prod.fst).dedup).Pairwise
      (· < · : ℕ → ℕ → Prop) :=
    pairwise_lt_of_le_nodup _ (hmapP.sublist (List.dedup_sublist _)) (List.nodup_dedup _)
  have hswP : (List.insertionSort byWeightDesc (mergeAdjacent
      (List.insertionSort byId l))).Pairwise wOrd := by
    refine sortW_pairwise _ ?_
    rw [hmerged]
    exact List.pairwise_map.2 (hidslt.imp (fun hab => hab))
  rw [mnm_characterize l]
  by_cases hpos : 0 < totalWeight l
  · rw [if_pos hpos]
    refine ⟨?_, ?_, ?_, ?_⟩
    · rw [hfst]
      exact hnodupsw
    · intro i
      rw [hfst]
      exact hmemids i
    · intro _ p hp
      rcases List.mem_map.1 hp with ⟨q, hq, hgq⟩
      have hqmem : q ∈ mergeAdjacent (List.insertionSort byId l) := hswperm.subset hq
      rw [hmerged] at hqmem
      rcases List.mem_map.1 hqmem with ⟨i, _, hqi⟩
      rw [← hgq, ← hqi]
      dsimp only
      rw [groupedWeight_perm _ _ hsperm]
    · refine List.pairwise_map.2 (hswP.imp ?_)
      intro a b hab
      rcases hab with hlt | ⟨heq, hid⟩
      · exact Or.inl (div_lt_div_of_pos_right hlt hpos)
      · exact Or.inr ⟨by dsimp only; rw [heq], hid⟩
  · rw [if_neg hpos]
    exact ⟨hnodupsw, fun i => hmemids i, fun hpos2 => absurd hpos2 hpos, hswP⟩

/-- C5: contributions are grouped by material id with weights summed per
id, the merged pairs are ordered by weight descending with exact-weight
ties broken by ascending id, the result is independent of the input order
of the contributions, and `contributions_to_vertex_data` retains at most
the first 4 pairs (whenever the retained weights are not degenerate). -/
theorem claim_C5_merge_order (l₁ l₂ l m : List (ℕ × ℚ))
    (hperm : l₁.Perm l₂)
    (hm : ¬ ((m.take 4).map Prod.snd).sum < 1/10000) :
    (merge_and_normalize_materials l₁ = merge_and_normalize_materials l₂ ∧
      contributions_to_vertex_data (merge_and_normalize_materials l₁) =
        contributions_to_vertex_data (merge_and_normalize_materials l₂)) ∧
    (((merge_and_normalize_materials l).map Prod.fst).Nodup ∧
      (∀ i, i ∈ (merge_and_normalize_materials l).map Prod.fst ↔ i ∈ l.map Prod.fst) ∧
      (0 < totalWeight l → ∀ p ∈ merge_and_normalize_materials l,
        p.2 = groupedWeight l p.1 / totalWeight l) ∧
      (merge_and_normalize_materials l).Pairwise wOrd) ∧
    (contributions_to_vertex_data m).ids = ((m.take 4).map Prod.fst ++ [0, 0, 0, 0]).take 4 := by
  refine ⟨⟨merge_and_normalize_perm l₁ l₂ hperm, by rw [merge_and_normalize_perm l₁ l₂ hperm]⟩,
    mnm_facts l, ?_⟩
  rcases m with _ | ⟨⟨m0, w0⟩, _ | ⟨⟨m1, w1⟩, _ | ⟨⟨m2, w2⟩, _ | ⟨⟨m3, w3⟩, rest⟩⟩⟩⟩
  · rfl
  · rfl
  · rfl
  · show (VertexMaterialData.blend3 m0 m1 m2 w0 w1 w2).ids = _
    unfold VertexMaterialData.blend3
    rw [if_neg (fun hcon => hm (by
      simp only [List.take, List.map_cons, List.map_nil, List.sum_cons, List.sum_nil]
      linarith))]
    simp [List.take]
  · show (VertexMaterialData.blend4 [m0, m1, m2, m3] [w0, w1, w2, w3]).ids = _
    unfold VertexMaterialData.blend4
    rw [if_neg (fun hcon => hm (by
      simp only [List.take, List.map_cons, List.map_nil, List.sum_cons, List.sum_nil] at hcon ⊢
      linarith))]
    simp [List.take]

/-- Witness for C5: a transposed pair of contributions merges to the same
result, and a singleton contribution list retains exactly its id. -/
theorem claim_C5_merge_order_witness :
    (merge_and_normalize_materials [(1, 3), (2, 1)] =
      merge_and_normalize_materials [(2, 1), (1, 3)]) ∧
    (contributions_to_vertex_data [(5, (1 : ℚ))]).ids =
      (([(5, (1 : ℚ))].take 4).map Prod.fst ++ [0, 0, 0, 0]).take 4 :=
  ⟨((claim_C5_merge_order [(1, 3), (2, 1)] [(2, 1), (1, 3)] [] [(5, 1)]
      (List.Perm.swap (2, 1) (1, 3) []) (by norm_num)).1).1,
   (claim_C5_merge_order [(1, 3), (2, 1)] [(2, 1), (1, 3)] [] [(5, 1)]
      (List.Perm.swap (2, 1) (1, 3) []) (by norm_num)).2.2⟩

end BevyPainter
